import Mathlib

/-!
Verification development for the mosaic Figma plugin.

The definitions below are shallow embeddings of the plugin source:

* `src/ui.html` — pixel-buffer signature extraction (`calculateImageData`
  per grid cell, `calculateComponentData`) and the UI-side error path of the
  `process-image` message handler.
* `src/unnamed/part_000` — the plugin controller: `getImageData` (export
  fallback and timeout fallback), `getComponentData` (per-component default
  on failure/timeout), `createMosaic` (matcher scoring loop),
  `createMosaicVariations` (variation generation) and the grid-size
  computation in `figma.ui.onmessage`.

Machine numbers (JS doubles) are modelled as exact rationals where the code
only adds, multiplies and divides, and as real numbers where `Math.sqrt`
enters (the matcher's colour distance).  Asynchronous host calls are
modelled by explicit outcome values (success / failure / timeout).
-/

namespace Mosaic

/-- RGB colour triple, as in the source's `{ r, g, b }` records. -/
structure RGB (α : Type) where
  r : α
  g : α
  b : α
deriving Repr, DecidableEq

/-- A visual signature: `{ brightness, color, transparencyRatio }`
(`CellData` / `ComponentData` in `src/unnamed/part_000`). -/
structure Sig (α : Type) where
  brightness : α
  color : RGB α
  transparencyRatio : α
deriving Repr, DecidableEq

/-- One RGBA pixel of a decoded buffer, 8-bit channels as in
`ctx.getImageData(...).data` (`src/ui.html`). -/
structure Pixel where
  r : ℕ
  g : ℕ
  b : ℕ
  a : ℕ
deriving Repr, DecidableEq

/-- Accumulator of the extraction loops of `calculateImageData` /
`calculateComponentData` (`src/ui.html`): running totals of brightness and
channels, the count of counted pixels and the count of transparent pixels. -/
structure Acc where
  totalBrightness : ℚ
  totalR : ℚ
  totalG : ℚ
  totalB : ℚ
  totalPixels : ℕ
  transparentPixels : ℕ
deriving Repr, DecidableEq

/-- Initial accumulator: all totals zero. -/
def Acc.init : Acc := ⟨0, 0, 0, 0, 0, 0⟩

/-- One iteration of the extraction loop (`src/ui.html`, lines 282-313 and
388-419): channels are divided by 255; a pixel with alpha < 0.1 is
transparent and is either skipped or, under the transparency-as-white flag,
counted as pure white; a visible pixel contributes alpha-weighted channels
and the luma `(0.299 r + 0.587 g + 0.114 b) · a`. -/
def accPixel (transparencyIsWhite : Bool) (acc : Acc) (p : Pixel) : Acc :=
  let r : ℚ := p.r / 255
  let g : ℚ := p.g / 255
  let b : ℚ := p.b / 255
  let a : ℚ := p.a / 255
  if a < 0.1 then
    if transparencyIsWhite then
      { totalBrightness := acc.totalBrightness + 1.0
        totalR := acc.totalR + 1.0
        totalG := acc.totalG + 1.0
        totalB := acc.totalB + 1.0
        totalPixels := acc.totalPixels + 1
        transparentPixels := acc.transparentPixels + 1 }
    else
      { acc with transparentPixels := acc.transparentPixels + 1 }
  else
    { totalBrightness := acc.totalBrightness + (0.299 * r + 0.587 * g + 0.114 * b) * a
      totalR := acc.totalR + r * a
      totalG := acc.totalG + g * a
      totalB := acc.totalB + b * a
      totalPixels := acc.totalPixels + 1
      transparentPixels := acc.transparentPixels }

/-- Finalisation of the extraction loops (`src/ui.html`, lines 316-334 and
421-436): averages when at least one pixel was counted, else the
flag-dependent default; the transparency ratio divides by the total pixel
count of the buffer (`imageData.length / 4`), not the sampled count. -/
def finalizeSig (transparencyIsWhite : Bool) (acc : Acc) (pixelCount : ℕ) : Sig ℚ :=
  if 0 < acc.totalPixels then
    { brightness := acc.totalBrightness / acc.totalPixels
      color := ⟨acc.totalR / acc.totalPixels, acc.totalG / acc.totalPixels,
                acc.totalB / acc.totalPixels⟩
      transparencyRatio := acc.transparentPixels / pixelCount }
  else
    { brightness := if transparencyIsWhite then 1.0 else 0.0
      color := if transparencyIsWhite then ⟨1.0, 1.0, 1.0⟩ else ⟨0.0, 0.0, 0.0⟩
      transparencyRatio := acc.transparentPixels / pixelCount }

/-- The stride-16 sampling of `calculateImageData` (`for (let i = 0;
i < imageData.length; i += 16)`): every 4th pixel of the cell's buffer. -/
def everyFourth : List Pixel → List Pixel
  | [] => []
  | p :: rest => p :: everyFourth (rest.drop 3)
termination_by l => l.length
decreasing_by simp only [List.length_drop, List.length_cons]; omega

/-- Signature of one grid cell as computed by `calculateImageData`
(`src/ui.html`, lines 264-335): the cell's pixel buffer is sampled at every
4th pixel; the denominator of the transparency ratio is the full pixel
count of the cell. -/
def calculateImageCell (transparencyIsWhite : Bool) (pixels : List Pixel) : Sig ℚ :=
  finalizeSig transparencyIsWhite
    ((everyFourth pixels).foldl (accPixel transparencyIsWhite) Acc.init)
    pixels.length

/-- Signature of a component as computed by `calculateComponentData`
(`src/ui.html`, lines 359-460): every pixel of the buffer is visited. -/
def calculateComponentData (transparencyIsWhite : Bool) (pixels : List Pixel) : Sig ℚ :=
  finalizeSig transparencyIsWhite
    (pixels.foldl (accPixel transparencyIsWhite) Acc.init)
    pixels.length

/-! ### Tile signature cache (`getComponentData`, `src/unnamed/part_000` lines 125-205) -/

/-- Outcome of one component's rasterization/extraction round trip:
the UI replied with data, the export threw, or the 5-second wait ran out. -/
inductive ExtractOutcome where
  | ok (data : Sig ℚ)
  | failed
  | timedOut
deriving Repr, DecidableEq

/-- The neutral default signature substituted for a failed or timed-out
component (`src/unnamed/part_000`, lines 177-181 and 189-194). -/
def neutralSig : Sig ℚ := ⟨0.5, ⟨0.5, 0.5, 0.5⟩, 0⟩

/-- One entry of the component library: component identity plus data. -/
structure CompEntry where
  comp : ℕ
  data : Sig ℚ
deriving Repr, DecidableEq

/-- `getComponentData` (`src/unnamed/part_000`, lines 125-205): each
component is mapped — in order, via `components.map` + `Promise.all` — to
its extracted data, or to `neutralSig` when its export threw or its
bounded wait timed out. -/
def getComponentData (inputs : List (ℕ × ExtractOutcome)) : List CompEntry :=
  inputs.map fun ci =>
    match ci.2 with
    | .ok d => ⟨ci.1, d⟩
    | .failed => ⟨ci.1, neutralSig⟩
    | .timedOut => ⟨ci.1, neutralSig⟩

/-! ### Image grid acquisition (`getImageData`, `src/unnamed/part_000` lines 38-122,
and the `process-image` handler of `src/ui.html` lines 486-523) -/

/-- Fallback cell built when `exportAsync` throws (`src/unnamed/part_000`,
lines 53-71): a simple gradient in the relative coordinates. -/
def exportFallbackCell (w h x y : ℕ) : Sig ℚ :=
  let relativeX : ℚ := x / w
  let relativeY : ℚ := y / h
  { brightness := 0.3 + relativeX * 0.4 + relativeY * 0.3
    color := ⟨0.3 + relativeX * 0.7, 0.3 + relativeY * 0.7, 0.5⟩
    transparencyRatio := 0 }

/-- Fallback grid of the export-failure path (`src/unnamed/part_000`,
lines 53-71). -/
def exportFallbackGrid (w h : ℕ) : List (List (Sig ℚ)) :=
  (List.range h).map fun y => (List.range w).map fun x => exportFallbackCell w h x y

/-- Fallback cell built when the 10-second wait for the UI reply runs out
(`src/unnamed/part_000`, lines 102-118): the same gradient formula,
written out a second time in the source. -/
def timeoutFallbackCell (w h x y : ℕ) : Sig ℚ :=
  let relativeX : ℚ := x / w
  let relativeY : ℚ := y / h
  { brightness := 0.3 + relativeX * 0.4 + relativeY * 0.3
    color := ⟨0.3 + relativeX * 0.7, 0.3 + relativeY * 0.7, 0.5⟩
    transparencyRatio := 0 }

/-- Fallback grid of the timeout path (`src/unnamed/part_000`, lines 97-120). -/
def timeoutFallbackGrid (w h : ℕ) : List (List (Sig ℚ)) :=
  (List.range h).map fun y => (List.range w).map fun x => timeoutFallbackCell w h x y

/-- The uniform neutral map the UI sends back when `calculateImageData`
throws (decode failure) — `src/ui.html`, lines 504-521. -/
def uiErrorGrid (w h : ℕ) : List (List (Sig ℚ)) :=
  (List.range h).map fun _y => (List.range w).map fun _x =>
    ({ brightness := 0.5, color := ⟨0.5, 0.5, 0.5⟩, transparencyRatio := 0 } : Sig ℚ)

/-- Outcome of the in-UI decoding of the exported PNG. -/
inductive DecodeOutcome where
  | ok (cells : List (List (List Pixel)))
  | fail

/-- The UI's `process-image` handler (`src/ui.html`, lines 486-523):
on success it extracts each cell's signature, on a decode error it sends
the uniform neutral map. -/
def processImageReply (transparencyIsWhite : Bool) (w h : ℕ) :
    DecodeOutcome → List (List (Sig ℚ))
  | .ok cells => cells.map fun row => row.map fun cell =>
      calculateImageCell transparencyIsWhite cell
  | .fail => uiErrorGrid w h

/-- Outcome of `getImageData`'s export + message round trip. -/
inductive RasterOutcome where
  | exportFail
  | uiReply (dataMap : List (List (Sig ℚ)))
  | timeout

/-- `getImageData` (`src/unnamed/part_000`, lines 38-122): gradient
fallback when `exportAsync` throws, the UI's reply when one arrives,
gradient fallback again when the 10-second wait runs out. -/
def getImageData (w h : ℕ) : RasterOutcome → List (List (Sig ℚ))
  | .exportFail => exportFallbackGrid w h
  | .uiReply m => m
  | .timeout => timeoutFallbackGrid w h

/-! ### Grid-size computation (`figma.ui.onmessage`, `src/unnamed/part_000`
lines 632-635) -/

/-- `gridWidth = Math.floor((selectedImage.width * config.enlargement) /
config.tileSize)` (`src/unnamed/part_000`, line 634). -/
def gridWidth (imageWidth enlargement tileSize : ℚ) : ℤ :=
  ⌊imageWidth * enlargement / tileSize⌋

/-- `gridHeight = Math.floor((selectedImage.height * config.enlargement) /
config.tileSize)` (`src/unnamed/part_000`, line 635). -/
def gridHeight (imageHeight enlargement tileSize : ℚ) : ℤ :=
  ⌊imageHeight * enlargement / tileSize⌋

/-! ### The matcher (`createMosaic`, `src/unnamed/part_000` lines 410-463)

The scoring arithmetic involves `Math.sqrt`, so this part of the model works
over the real numbers. -/

/-- One tile of the component library: identity plus extracted brightness
and colour (the `ComponentData` consumed by `createMosaic`). -/
structure Tile where
  id : ℕ
  brightness : ℝ
  color : RGB ℝ

/-- The normalized colour distance of the scoring loop
(`src/unnamed/part_000`, lines 435-439): Euclidean RGB distance divided
by √3. -/
noncomputable def colorDiff (c k : RGB ℝ) : ℝ :=
  Real.sqrt ((c.r - k.r) ^ 2 + (c.g - k.g) ^ 2 + (c.b - k.b) ^ 2) / Real.sqrt 3

/-- The combined base score (`src/unnamed/part_000`, lines 430-442):
`brightnessDiff * 0.6 + colorDiff * 0.4`, lower is better. -/
noncomputable def baseScore (cell : Sig ℝ) (comp : Tile) : ℝ :=
  |cell.brightness - comp.brightness| * 0.6 + colorDiff cell.color comp.color * 0.4

/-- The usage penalty (`src/unnamed/part_000`, line 446):
`Math.min(usageCount * 0.01, 0.1)`. -/
noncomputable def usagePenalty (usageCount : ℕ) : ℝ :=
  min ((usageCount : ℝ) * 0.01) 0.1

/-- Base score plus usage penalty, the quantity compared against
`bestScore` (`src/unnamed/part_000`, line 448). -/
noncomputable def penalizedScore (cell : Sig ℝ) (usage : ℕ → ℕ) (comp : Tile) : ℝ :=
  baseScore cell comp + usagePenalty (usage comp.id)

/-- `Number.MAX_VALUE`, the initial `bestScore` of the scoring loop
(`src/unnamed/part_000`, line 426): `(2 - 2^-52) · 2^1023`. -/
noncomputable def MAX_VALUE : ℝ := 2 ^ 1024 - 2 ^ 971

open Classical in
/-- The scoring loop of `createMosaic` (`src/unnamed/part_000`, lines
429-452): fold over the library, replacing the running best exactly when
the penalized score is strictly smaller. -/
noncomputable def matchFold (cell : Sig ℝ) (usage : ℕ → ℕ) :
    List Tile → Tile × ℝ → Tile × ℝ
  | [], best => best
  | c :: cs, best =>
      matchFold cell usage cs
        (if penalizedScore cell usage c < best.2 then (c, penalizedScore cell usage c) else best)

/-- The chosen tile for one grid cell (`src/unnamed/part_000`, lines
425-452): the loop starts from `componentLibrary[0]` with score
`Number.MAX_VALUE` and scans the whole library in order. -/
noncomputable def bestMatch (cell : Sig ℝ) (usage : ℕ → ℕ)
    (first : Tile) (rest : List Tile) : Tile :=
  (matchFold cell usage (first :: rest) (first, MAX_VALUE)).1

/-! ### Variable-size tile planner (spec-modelled) -/

/-- The tile-size-variation modes offered by the UI (`src/ui.html`,
lines 211-215): "1x (uniform)", "1x, 2x (variable)",
"1x, 2x, 4x (highly variable)". -/
inductive SizeMode where
  | oneX
  | twoX
  | fourX
deriving Repr, DecidableEq

/-- Maximum footprint size permitted by a mode. -/
def maxAllowed : SizeMode → ℕ
  | .oneX => 1
  | .twoX => 2
  | .fourX => 4

/-- The cells of the S×S block at origin (x, y), row by row. -/
def blockCells (x y S : ℕ) : List (ℕ × ℕ) :=
  ((List.range S).map fun j => (List.range S).map fun i => (x + i, y + j)).flatten

/-- Euclidean RGB distance (no normalization), used for the block colour
deviation. -/
noncomputable def colorDist (c k : RGB ℝ) : ℝ :=
  Real.sqrt ((c.r - k.r) ^ 2 + (c.g - k.g) ^ 2 + (c.b - k.b) ^ 2)

/-- Mean brightness over a list of cells of a signature grid. -/
noncomputable def blockMeanBrightness (sig : ℕ → ℕ → Sig ℝ) (cells : List (ℕ × ℕ)) : ℝ :=
  (cells.map fun c => (sig c.1 c.2).brightness).sum / cells.length

/-- Mean colour over a list of cells of a signature grid. -/
noncomputable def blockMeanColor (sig : ℕ → ℕ → Sig ℝ) (cells : List (ℕ × ℕ)) : RGB ℝ :=
  ⟨(cells.map fun c => (sig c.1 c.2).color.r).sum / cells.length,
   (cells.map fun c => (sig c.1 c.2).color.g).sum / cells.length,
   (cells.map fun c => (sig c.1 c.2).color.b).sum / cells.length⟩

/-- Maximum absolute deviation of any cell's brightness from a reference
value. -/
noncomputable def maxBrightnessDev (sig : ℕ → ℕ → Sig ℝ) (cells : List (ℕ × ℕ))
    (mean : ℝ) : ℝ :=
  (cells.map fun c => |(sig c.1 c.2).brightness - mean|).foldl max 0

/-- Maximum Euclidean distance of any cell's colour from a reference
colour. -/
noncomputable def maxColorDev (sig : ℕ → ℕ → Sig ℝ) (cells : List (ℕ × ℕ))
    (mean : RGB ℝ) : ℝ :=
  (cells.map fun c => colorDist (sig c.1 c.2).color mean).foldl max 0

/-- All cells of a block are inside the W×H grid and unoccupied. -/
def blockFree (W H : ℕ) (occ : ℕ → ℕ → Bool) (cells : List (ℕ × ℕ)) : Bool :=
  cells.all fun c => decide (c.1 < W) && decide (c.2 < H) && !occ c.1 c.2

/-- Modelled from the spec: the acceptance test of the Variable-Size Tile
Planner (spec §4.4).  The planner itself is not among the source files —
`src/ui.html` only collects the tile-size-variation mode — so the block
test is taken from the spec's words: the S×S block must lie in bounds,
be unoccupied, and satisfy `maxBrightnessDev < 0.1` and
`maxColorDev < 0.15`, deviations measured from the block's means. -/
noncomputable def blockQualifies (W H : ℕ) (occ : ℕ → ℕ → Bool)
    (sig : ℕ → ℕ → Sig ℝ) (x y S : ℕ) : Prop :=
  blockFree W H occ (blockCells x y S) = true ∧
  maxBrightnessDev sig (blockCells x y S)
    (blockMeanBrightness sig (blockCells x y S)) < 0.1 ∧
  maxColorDev sig (blockCells x y S)
    (blockMeanColor sig (blockCells x y S)) < 0.15

/-- Result of the planner: footprint size and aggregate signature. -/
structure PlanResult where
  size : ℕ
  brightness : ℝ
  color : RGB ℝ

open Classical in
/-- Modelled from the spec: the Variable-Size Tile Planner (spec §4.4),
absent from the source files.  Checking proceeds size-up: try 2 (when the
mode permits it), and only if 2 is accepted, try 4; if no larger size
qualifies, fall back to a 1×1 footprint with the cell's own signature,
unmodified. -/
noncomputable def planFootprint (W H : ℕ) (occ : ℕ → ℕ → Bool)
    (sig : ℕ → ℕ → Sig ℝ) (mode : SizeMode) (x y : ℕ) : PlanResult :=
  if 2 ≤ maxAllowed mode ∧ blockQualifies W H occ sig x y 2 then
    if 4 ≤ maxAllowed mode ∧ blockQualifies W H occ sig x y 4 then
      ⟨4, blockMeanBrightness sig (blockCells x y 4),
          blockMeanColor sig (blockCells x y 4)⟩
    else
      ⟨2, blockMeanBrightness sig (blockCells x y 2),
          blockMeanColor sig (blockCells x y 2)⟩
  else
    ⟨1, (sig x y).brightness, (sig x y).color⟩

/-! ### Variation generation (`createMosaicVariations`,
`src/unnamed/part_000` lines 208-351) -/

/-- The random draws one variation consumes: the percentage draw, the
stream of position draws of the `while` loop, and the top-3 choice draw
per replaced position.  Each is a `Math.random()` value in [0, 1) (the
position draws are modelled post-scaling, as the pair
`(Math.floor(r·xTileCount), Math.floor(r·yTileCount))`). -/
structure VarRand where
  pctDraw : ℚ
  posDraw : ℕ → ℕ × ℕ
  choiceDraw : ℕ × ℕ → ℚ

/-- `const replacementPercentage = 5 + Math.floor(Math.random() * 6)`
(`src/unnamed/part_000`, line 267). -/
def replacementPercentage (r : ℚ) : ℤ := 5 + ⌊r * 6⌋

/-- `const numToReplace = Math.floor((replacementPercentage / 100) *
totalInstances)` (`src/unnamed/part_000`, line 269). -/
def numToReplace (pct : ℤ) (total : ℕ) : ℤ := ⌊(pct : ℚ) / 100 * total⌋

/-- The position-collecting `while` loop (`src/unnamed/part_000`, lines
272-277): keep inserting random positions into a set until it holds `n`
distinct positions.  The loop is given explicit fuel; the source loop
terminates with probability 1. -/
def pickPositions (posDraw : ℕ → ℕ × ℕ) (n : ℕ) :
    ℕ → ℕ → Finset (ℕ × ℕ) → Finset (ℕ × ℕ)
  | 0, _, s => s
  | fuel + 1, i, s =>
      if s.card < n then pickPositions posDraw n fuel (i + 1) (insert (posDraw i) s)
      else s

/-- `mapX` / `mapY` (`src/unnamed/part_000`, lines 295-296):
`Math.min(len - 1, Math.floor(idx * len / tileCount))`. -/
def mapIndex (len idx tileCount : ℕ) : ℕ := min (len - 1) (idx * len / tileCount)

/-- The image cell consulted for a grid position (`src/unnamed/part_000`,
lines 295-297). -/
def cellAt (img : ℕ → ℕ → Sig ℝ) (imgW imgH xT yT : ℕ) (pos : ℕ × ℕ) : Sig ℝ :=
  img (mapIndex imgH pos.2 yT) (mapIndex imgW pos.1 xT)

open Classical in
/-- The alternative-selection of one replaced position
(`src/unnamed/part_000`, lines 300-326): filter out the currently placed
component, score every other tile by the base formula (no usage penalty),
sort ascending by score, and pick index `Math.floor(r · min(3, length))`.
`none` models the `alternativeComponents[randomIndex]?.component ===
undefined` case, in which no replacement happens. -/
noncomputable def selectAlternative (cell : Sig ℝ) (lib : List Tile)
    (currentId : ℕ) (rchoice : ℚ) : Option Tile :=
  let alternatives := (lib.filter fun c => c.id ≠ currentId).map fun c =>
    (c, baseScore cell c)
  let sortedAlts := alternatives.mergeSort fun a b => decide (a.2 ≤ b.2)
  let randomIndex : ℕ := (⌊rchoice * (min 3 sortedAlts.length : ℚ)⌋).toNat
  (sortedAlts.get? randomIndex).map fun sel => sel.1

open Classical in
/-- One variation layout (`src/unnamed/part_000`, lines 258-339): clone
the primary layout, draw the replacement percentage and the set of
positions to replace, and at each such position substitute a selected
alternative component (keeping the original when none is found). -/
noncomputable def varyLayout (img : ℕ → ℕ → Sig ℝ) (imgW imgH : ℕ)
    (lib : List Tile) (prim : ℕ × ℕ → ℕ) (xT yT : ℕ) (rand : VarRand)
    (fuel : ℕ) : (ℕ × ℕ) → ℕ :=
  let total := xT * yT
  let n := (numToReplace (replacementPercentage rand.pctDraw) total).toNat
  let positionsToReplace := pickPositions rand.posDraw n fuel 0 ∅
  fun pos =>
    if pos ∈ positionsToReplace then
      match selectAlternative (cellAt img imgW imgH xT yT pos) lib (prim pos)
          (rand.choiceDraw pos) with
      | some t => t.id
      | none => prim pos
    else prim pos

/-- `createMosaicVariations` (`src/unnamed/part_000`, lines 208-351):
for `i` from 1 to `variationCount - 1`, clone the original mosaic and
replace a random subset of its instances; with `variationCount ≤ 1`
nothing is produced. -/
noncomputable def createMosaicVariations (img : ℕ → ℕ → Sig ℝ) (imgW imgH : ℕ)
    (lib : List Tile) (prim : ℕ × ℕ → ℕ) (xT yT : ℕ)
    (variationCount : ℕ) (rands : ℕ → VarRand) (fuel : ℕ) :
    List ((ℕ × ℕ) → ℕ) :=
  (List.range (variationCount - 1)).map fun i =>
    varyLayout img imgW imgH lib prim xT yT (rands i) fuel

/-- The set of grid positions of an `xT × yT` layout. -/
def gridPositions (xT yT : ℕ) : Finset (ℕ × ℕ) :=
  Finset.range xT ×ˢ Finset.range yT

/-- The footprints at which a variation differs from the primary layout. -/
def diffSet (prim v : ℕ × ℕ → ℕ) (xT yT : ℕ) : Finset (ℕ × ℕ) :=
  (gridPositions xT yT).filter fun p => v p ≠ prim p

/-! ### Support predicates -/

/-- A pixel whose four channel bytes are in range. -/
def ValidPixel (p : Pixel) : Prop :=
  p.r ≤ 255 ∧ p.g ≤ 255 ∧ p.b ≤ 255 ∧ p.a ≤ 255

instance : DecidablePred ValidPixel := fun p => by
  unfold ValidPixel; infer_instance

/-- A pixel the extraction loops treat as transparent: `a < 0.1` after
dividing the alpha byte by 255. -/
def Transparent (p : Pixel) : Prop := (p.a : ℚ) / 255 < 0.1

instance : DecidablePred Transparent := fun p => by
  unfold Transparent; infer_instance

/-- Invariant of the extraction accumulator: every running total is
non-negative and at most the count of counted pixels. -/
def AccOK (acc : Acc) : Prop :=
  0 ≤ acc.totalBrightness ∧ acc.totalBrightness ≤ acc.totalPixels ∧
  0 ≤ acc.totalR ∧ acc.totalR ≤ acc.totalPixels ∧
  0 ≤ acc.totalG ∧ acc.totalG ≤ acc.totalPixels ∧
  0 ≤ acc.totalB ∧ acc.totalB ≤ acc.totalPixels

/-- Brightness and all three colour channels of a signature lie in [0, 1]. -/
def SigInUnit (s : Sig ℚ) : Prop :=
  0 ≤ s.brightness ∧ s.brightness ≤ 1 ∧
  0 ≤ s.color.r ∧ s.color.r ≤ 1 ∧
  0 ≤ s.color.g ∧ s.color.g ≤ 1 ∧
  0 ≤ s.color.b ∧ s.color.b ≤ 1

instance : DecidablePred SigInUnit := fun s => by
  unfold SigInUnit; infer_instance

/-- Cell accessor for a grid stored as a list of rows. -/
def gridCell (g : List (List (Sig ℚ))) (x y : ℕ) : Sig ℚ :=
  (g.getD y []).getD x ⟨0, ⟨0, 0, 0⟩, 0⟩

/-! ## Lemmas about the signature extraction -/

theorem accInit_ok : AccOK Acc.init := by
  norm_num [AccOK, Acc.init]

theorem accPixel_transparent_white (acc : Acc) (p : Pixel)
    (ht : Transparent p) :
    accPixel true acc p =
      ⟨acc.totalBrightness + 1, acc.totalR + 1, acc.totalG + 1, acc.totalB + 1,
       acc.totalPixels + 1, acc.transparentPixels + 1⟩ := by
  unfold Transparent at ht
  simp only [accPixel]
  rw [if_pos ht]
  norm_num

theorem accPixel_transparent_skip (acc : Acc) (p : Pixel)
    (ht : Transparent p) :
    accPixel false acc p = { acc with transparentPixels := acc.transparentPixels + 1 } := by
  unfold Transparent at ht
  simp [accPixel, ht]

theorem accPixel_visible (tw : Bool) (acc : Acc) (p : Pixel)
    (ht : ¬ Transparent p) :
    accPixel tw acc p =
      ⟨acc.totalBrightness + (0.299 * ((p.r : ℚ) / 255) + 0.587 * ((p.g : ℚ) / 255) +
          0.114 * ((p.b : ℚ) / 255)) * ((p.a : ℚ) / 255),
       acc.totalR + (p.r : ℚ) / 255 * ((p.a : ℚ) / 255),
       acc.totalG + (p.g : ℚ) / 255 * ((p.a : ℚ) / 255),
       acc.totalB + (p.b : ℚ) / 255 * ((p.a : ℚ) / 255),
       acc.totalPixels + 1, acc.transparentPixels⟩ := by
  unfold Transparent at ht
  simp [accPixel, ht]

set_option maxHeartbeats 1600000 in
theorem accPixel_ok (tw : Bool) (acc : Acc) (p : Pixel)
    (hacc : AccOK acc) (hp : ValidPixel p) : AccOK (accPixel tw acc p) := by
  obtain ⟨hB0, hB1, hR0, hR1, hG0, hG1, hBl0, hBl1⟩ := hacc
  obtain ⟨hpr, hpg, hpb, hpa⟩ := hp
  have hr0 : (0 : ℚ) ≤ (p.r : ℚ) / 255 := by positivity
  have hg0 : (0 : ℚ) ≤ (p.g : ℚ) / 255 := by positivity
  have hb0 : (0 : ℚ) ≤ (p.b : ℚ) / 255 := by positivity
  have ha0 : (0 : ℚ) ≤ (p.a : ℚ) / 255 := by positivity
  have hr1 : (p.r : ℚ) / 255 ≤ 1 := by
    rw [div_le_one (by norm_num)]; exact_mod_cast hpr
  have hg1 : (p.g : ℚ) / 255 ≤ 1 := by
    rw [div_le_one (by norm_num)]; exact_mod_cast hpg
  have hb1 : (p.b : ℚ) / 255 ≤ 1 := by
    rw [div_le_one (by norm_num)]; exact_mod_cast hpb
  have ha1 : (p.a : ℚ) / 255 ≤ 1 := by
    rw [div_le_one (by norm_num)]; exact_mod_cast hpa
  by_cases ht : Transparent p
  · cases tw
    · rw [accPixel_transparent_skip acc p ht]
      exact ⟨hB0, hB1, hR0, hR1, hG0, hG1, hBl0, hBl1⟩
    · rw [accPixel_transparent_white acc p ht]
      refine ⟨?_, ?_, ?_, ?_, ?_, ?_, ?_, ?_⟩ <;> dsimp only <;> push_cast <;> linarith
  · have hlum0 : (0 : ℚ) ≤ (0.299 * ((p.r : ℚ) / 255) + 0.587 * ((p.g : ℚ) / 255) +
        0.114 * ((p.b : ℚ) / 255)) * ((p.a : ℚ) / 255) := by positivity
    have hlum1 : (0.299 * ((p.r : ℚ) / 255) + 0.587 * ((p.g : ℚ) / 255) +
        0.114 * ((p.b : ℚ) / 255)) * ((p.a : ℚ) / 255) ≤ 1 := by nlinarith
    have hra : (p.r : ℚ) / 255 * ((p.a : ℚ) / 255) ≤ 1 := by nlinarith
    have hga : (p.g : ℚ) / 255 * ((p.a : ℚ) / 255) ≤ 1 := by nlinarith
    have hba : (p.b : ℚ) / 255 * ((p.a : ℚ) / 255) ≤ 1 := by nlinarith
    have hra0 : (0 : ℚ) ≤ (p.r : ℚ) / 255 * ((p.a : ℚ) / 255) := by positivity
    have hga0 : (0 : ℚ) ≤ (p.g : ℚ) / 255 * ((p.a : ℚ) / 255) := by positivity
    have hba0 : (0 : ℚ) ≤ (p.b : ℚ) / 255 * ((p.a : ℚ) / 255) := by positivity
    rw [accPixel_visible tw acc p ht]
    unfold AccOK
    refine ⟨?_, ?_, ?_, ?_, ?_, ?_, ?_, ?_⟩ <;> dsimp only <;> push_cast <;> linarith

theorem foldl_accPixel_ok (tw : Bool) :
    ∀ (l : List Pixel) (acc : Acc), (∀ p ∈ l, ValidPixel p) → AccOK acc →
      AccOK (l.foldl (accPixel tw) acc)
  | [], _, _, hacc => hacc
  | p :: ps, acc, hl, hacc =>
      foldl_accPixel_ok tw ps _ (fun q hq => hl q (List.mem_cons_of_mem _ hq))
        (accPixel_ok tw acc p hacc (hl p (List.mem_cons_self _ _)))

theorem everyFourth_subset : ∀ (l : List Pixel), ∀ p ∈ everyFourth l, p ∈ l := by
  intro l
  induction l using everyFourth.induct with
  | case1 =>
      intro x hx
      simp [everyFourth] at hx
  | case2 p rest ih =>
      intro x hx
      rw [everyFourth] at hx
      rcases List.mem_cons.mp hx with h | h
      · simp [h]
      · exact List.mem_cons_of_mem _ (List.drop_subset 3 rest (ih x h))

theorem everyFourth_length : ∀ (l : List Pixel),
    (everyFourth l).length = (l.length + 3) / 4 := by
  intro l
  induction l using everyFourth.induct with
  | case1 => simp [everyFourth]
  | case2 p rest ih =>
      rw [everyFourth]
      simp only [List.length_cons, ih, List.length_drop]
      omega

theorem finalizeSig_unit (tw : Bool) (acc : Acc) (n : ℕ) (hacc : AccOK acc) :
    SigInUnit (finalizeSig tw acc n) := by
  obtain ⟨hB0, hB1, hR0, hR1, hG0, hG1, hBl0, hBl1⟩ := hacc
  unfold finalizeSig SigInUnit
  split_ifs with h htw
  · have hpos : (0 : ℚ) < acc.totalPixels := by exact_mod_cast h
    refine ⟨?_, ?_, ?_, ?_, ?_, ?_, ?_, ?_⟩ <;> dsimp only <;>
      first
        | exact div_nonneg (by assumption) hpos.le
        | exact (div_le_one hpos).mpr (by assumption)
  · refine ⟨?_, ?_, ?_, ?_, ?_, ?_, ?_, ?_⟩ <;> dsimp only <;> norm_num
  · refine ⟨?_, ?_, ?_, ?_, ?_, ?_, ?_, ?_⟩ <;> dsimp only <;> norm_num

theorem foldl_transparent_white : ∀ (l : List Pixel) (acc : Acc),
    (∀ p ∈ l, Transparent p) →
    l.foldl (accPixel true) acc =
      ⟨acc.totalBrightness + l.length, acc.totalR + l.length, acc.totalG + l.length,
       acc.totalB + l.length, acc.totalPixels + l.length,
       acc.transparentPixels + l.length⟩
  | [], acc, _ => by simp
  | p :: ps, acc, h => by
      rw [List.foldl_cons, accPixel_transparent_white acc p (h p (List.mem_cons_self _ _)),
        foldl_transparent_white ps _ (fun q hq => h q (List.mem_cons_of_mem _ hq))]
      simp only [List.length_cons, Acc.mk.injEq]
      refine ⟨?_, ?_, ?_, ?_, by omega, by omega⟩ <;> push_cast <;> ring

theorem foldl_transparent_skip : ∀ (l : List Pixel) (acc : Acc),
    (∀ p ∈ l, Transparent p) →
    l.foldl (accPixel false) acc =
      { acc with transparentPixels := acc.transparentPixels + l.length }
  | [], acc, _ => by simp
  | p :: ps, acc, h => by
      rw [List.foldl_cons, accPixel_transparent_skip acc p (h p (List.mem_cons_self _ _)),
        foldl_transparent_skip ps _ (fun q hq => h q (List.mem_cons_of_mem _ hq))]
      simp only [List.length_cons, Acc.mk.injEq, eq_self_iff_true, true_and, and_true]
      omega

theorem accPixel_transparent_count (tw : Bool) (acc : Acc) (p : Pixel) :
    (accPixel tw acc p).transparentPixels ≤ acc.transparentPixels + 1 := by
  by_cases ht : Transparent p
  · cases tw
    · rw [accPixel_transparent_skip acc p ht]
    · rw [accPixel_transparent_white acc p ht]
  · rw [accPixel_visible tw acc p ht]
    exact Nat.le_succ _

theorem foldl_transparent_count : ∀ (l : List Pixel) (acc : Acc) (tw : Bool),
    (l.foldl (accPixel tw) acc).transparentPixels ≤ acc.transparentPixels + l.length
  | [], _, _ => Nat.le_refl _
  | p :: ps, acc, tw => by
      rw [List.foldl_cons]
      calc (ps.foldl (accPixel tw) (accPixel tw acc p)).transparentPixels
          ≤ (accPixel tw acc p).transparentPixels + ps.length :=
            foldl_transparent_count ps _ tw
        _ ≤ acc.transparentPixels + 1 + ps.length := by
            have := accPixel_transparent_count tw acc p; omega
        _ = acc.transparentPixels + (p :: ps).length := by simp; omega

theorem finalizeSig_ratio (tw : Bool) (acc : Acc) (n : ℕ) :
    (finalizeSig tw acc n).transparencyRatio = (acc.transparentPixels : ℚ) / n := by
  unfold finalizeSig
  split_ifs <;> rfl

theorem transparentExtract (tw : Bool) (l : List Pixel) (n : ℕ)
    (ht : ∀ p ∈ l, Transparent p) :
    (finalizeSig tw (l.foldl (accPixel tw) Acc.init) n).brightness =
      (if tw then 1 else 0) ∧
    (finalizeSig tw (l.foldl (accPixel tw) Acc.init) n).color =
      (if tw then ⟨1, 1, 1⟩ else ⟨0, 0, 0⟩) := by
  cases tw
  · rw [foldl_transparent_skip l Acc.init ht]
    unfold finalizeSig Acc.init
    norm_num
  · rw [foldl_transparent_white l Acc.init ht]
    unfold finalizeSig Acc.init
    rcases Nat.eq_zero_or_pos l.length with h0 | hpos
    · simp [h0]
      norm_num
    · have hne : ((l.length : ℚ)) ≠ 0 := by positivity
      rw [if_pos (by simpa using hpos)]
      constructor <;> dsimp only <;> norm_num [div_self hne]

/-! ## C3 -/

/-- C3: for every valid pixel buffer (image cell region or component), the
extracted Signature's brightness and each of its r, g, b channel values lie
in [0, 1], regardless of the transparency-as-white flag. -/
theorem extracted_signature_in_unit (tw : Bool) (pixels : List Pixel)
    (hv : ∀ p ∈ pixels, ValidPixel p) :
    SigInUnit (calculateImageCell tw pixels) ∧
    SigInUnit (calculateComponentData tw pixels) :=
  ⟨finalizeSig_unit _ _ _ (foldl_accPixel_ok _ _ _
      (fun p hp => hv p (everyFourth_subset _ p hp)) accInit_ok),
   finalizeSig_unit _ _ _ (foldl_accPixel_ok _ _ _ hv accInit_ok)⟩

/-- Witness for C3 at a concrete two-pixel buffer. -/
theorem extracted_signature_in_unit_witness :
    (∀ p ∈ [Pixel.mk 255 128 0 255, Pixel.mk 10 20 30 12], ValidPixel p) ∧
    (SigInUnit (calculateImageCell true [Pixel.mk 255 128 0 255, Pixel.mk 10 20 30 12]) ∧
     SigInUnit (calculateComponentData true [Pixel.mk 255 128 0 255, Pixel.mk 10 20 30 12])) :=
  ⟨by decide, extracted_signature_in_unit true _ (by decide)⟩

/-! ## C5 -/

/-- C5: for every region whose pixels are all transparent (alpha < 0.1),
with the flag off the extracted Signature is brightness 0 and colour
(0, 0, 0); with the flag on it is brightness 1 and colour (1, 1, 1) — for
both the image-cell extractor and the component extractor. -/
theorem fully_transparent_signature (tw : Bool) (pixels : List Pixel)
    (ht : ∀ p ∈ pixels, Transparent p) :
    (calculateImageCell tw pixels).brightness = (if tw then 1 else 0) ∧
    (calculateImageCell tw pixels).color = (if tw then ⟨1, 1, 1⟩ else ⟨0, 0, 0⟩) ∧
    (calculateComponentData tw pixels).brightness = (if tw then 1 else 0) ∧
    (calculateComponentData tw pixels).color = (if tw then ⟨1, 1, 1⟩ else ⟨0, 0, 0⟩) := by
  have h1 := transparentExtract tw (everyFourth pixels) pixels.length
    (fun p hp => ht p (everyFourth_subset pixels p hp))
  have h2 := transparentExtract tw pixels pixels.length ht
  exact ⟨h1.1, h1.2, h2.1, h2.2⟩

/-- Witness for C5 at a concrete fully transparent one-pixel buffer. -/
theorem fully_transparent_signature_witness :
    (∀ p ∈ [Pixel.mk 7 8 9 20], Transparent p) ∧
    ((calculateImageCell false [Pixel.mk 7 8 9 20]).brightness = (if false then 1 else 0) ∧
     (calculateImageCell false [Pixel.mk 7 8 9 20]).color =
       (if false then ⟨1, 1, 1⟩ else ⟨0, 0, 0⟩) ∧
     (calculateComponentData false [Pixel.mk 7 8 9 20]).brightness = (if false then 1 else 0) ∧
     (calculateComponentData false [Pixel.mk 7 8 9 20]).color =
       (if false then ⟨1, 1, 1⟩ else ⟨0, 0, 0⟩)) :=
  ⟨by norm_num [Transparent], fully_transparent_signature false _ (by norm_num [Transparent])⟩

/-! ## C10 -/

/-- C10 counterexample: a 1-pixel, fully transparent cell buffer reports
transparencyRatio 1 — the stride-4 sampling bound of 0.25 fails when the
pixel count is not a multiple of 4. -/
theorem image_cell_ratio_counterexample :
    (calculateImageCell false [Pixel.mk 0 0 0 0]).transparencyRatio = 1 ∧
    ¬ (calculateImageCell false [Pixel.mk 0 0 0 0]).transparencyRatio ≤ 1 / 4 := by
  have hcell : calculateImageCell false [Pixel.mk 0 0 0 0] =
      ⟨0, ⟨0, 0, 0⟩, 1⟩ := by
    norm_num [calculateImageCell, everyFourth, accPixel, finalizeSig, Acc.init]
  rw [hcell]
  norm_num

/-- C10 amended: when the cell's pixel count is a positive multiple of 4,
the stride-4 sampling caps the image-cell transparency ratio at 1/4, a
fully transparent such cell reports exactly 1/4, and the component
extractor — which visits every pixel — reports 1 on a fully transparent
buffer. -/
theorem image_cell_ratio_bound (tw : Bool) (pixels : List Pixel) (k : ℕ)
    (hk : 0 < k) (hlen : pixels.length = 4 * k) :
    (calculateImageCell tw pixels).transparencyRatio ≤ 1 / 4 ∧
    ((∀ p ∈ pixels, Transparent p) →
      (calculateImageCell tw pixels).transparencyRatio = 1 / 4) ∧
    ((∀ p ∈ pixels, Transparent p) →
      (calculateComponentData tw pixels).transparencyRatio = 1) := by
  have hsample : (everyFourth pixels).length = k := by
    rw [everyFourth_length, hlen]; omega
  have hkQ : (0 : ℚ) < (pixels.length : ℚ) := by
    rw [hlen]; push_cast; positivity
  refine ⟨?_, ?_, ?_⟩
  · unfold calculateImageCell
    rw [finalizeSig_ratio]
    have hcount : ((everyFourth pixels).foldl (accPixel tw) Acc.init).transparentPixels ≤ k := by
      have hle := foldl_transparent_count (everyFourth pixels) Acc.init tw
      have h0 : Acc.init.transparentPixels = 0 := rfl
      rw [h0, Nat.zero_add, hsample] at hle
      exact hle
    rw [div_le_div_iff hkQ (by norm_num)]
    have : (((everyFourth pixels).foldl (accPixel tw) Acc.init).transparentPixels : ℚ) ≤ k :=
      by exact_mod_cast hcount
    rw [hlen]
    push_cast
    linarith
  · intro ht
    unfold calculateImageCell
    rw [finalizeSig_ratio]
    have hts : ∀ p ∈ everyFourth pixels, Transparent p :=
      fun p hp => ht p (everyFourth_subset pixels p hp)
    have hcount : ((everyFourth pixels).foldl (accPixel tw) Acc.init).transparentPixels = k := by
      cases tw
      · rw [foldl_transparent_skip _ _ hts]; simp [Acc.init, hsample]
      · rw [foldl_transparent_white _ _ hts]; simp [Acc.init, hsample]
    rw [hcount, hlen, div_eq_iff (by positivity)]
    push_cast
    ring
  · intro ht
    unfold calculateComponentData
    rw [finalizeSig_ratio]
    have hcount : (pixels.foldl (accPixel tw) Acc.init).transparentPixels = pixels.length := by
      cases tw
      · rw [foldl_transparent_skip _ _ ht]; simp [Acc.init]
      · rw [foldl_transparent_white _ _ ht]; simp [Acc.init]
    rw [hcount, div_self (by positivity)]

/-- Witness for the amended C10 at a concrete 4-pixel fully transparent
buffer. -/
theorem image_cell_ratio_bound_witness :
    (0 < 1 ∧ (List.replicate 4 (Pixel.mk 0 0 0 0)).length = 4 * 1) ∧
    ((calculateImageCell false (List.replicate 4 (Pixel.mk 0 0 0 0))).transparencyRatio ≤ 1 / 4 ∧
     ((∀ p ∈ List.replicate 4 (Pixel.mk 0 0 0 0), Transparent p) →
       (calculateImageCell false (List.replicate 4 (Pixel.mk 0 0 0 0))).transparencyRatio = 1 / 4) ∧
     ((∀ p ∈ List.replicate 4 (Pixel.mk 0 0 0 0), Transparent p) →
       (calculateComponentData false (List.replicate 4 (Pixel.mk 0 0 0 0))).transparencyRatio = 1)) :=
  ⟨⟨by decide, by decide⟩, image_cell_ratio_bound false _ 1 (by decide) (by decide)⟩

/-! ## C6 -/

/-- C6: signature extraction returns exactly one entry per candidate, in
order — the library never shrinks — and a candidate whose rasterization
fails or whose bounded wait times out receives the neutral default
Signature rather than being dropped. -/
theorem getComponentData_preserves_candidates (inputs : List (ℕ × ExtractOutcome)) :
    (getComponentData inputs).length = inputs.length ∧
    ∀ i c o, inputs.get? i = some (c, o) →
      ∃ e, (getComponentData inputs).get? i = some e ∧ e.comp = c ∧
        ((o = ExtractOutcome.failed ∨ o = ExtractOutcome.timedOut) → e.data = neutralSig) ∧
        (∀ d, o = ExtractOutcome.ok d → e.data = d) := by
  constructor
  · simp [getComponentData]
  · intro i c o h
    cases o with
    | ok d =>
        refine ⟨⟨c, d⟩, ?_, rfl, ?_, ?_⟩
        · unfold getComponentData
          rw [List.get?_map, h, Option.map_some']
        · rintro (h' | h') <;> cases h'
        · intro d' hd
          cases hd
          rfl
    | failed =>
        refine ⟨⟨c, neutralSig⟩, ?_, rfl, fun _ => rfl, ?_⟩
        · unfold getComponentData
          rw [List.get?_map, h, Option.map_some']
        · intro d' hd
          cases hd
    | timedOut =>
        refine ⟨⟨c, neutralSig⟩, ?_, rfl, fun _ => rfl, ?_⟩
        · unfold getComponentData
          rw [List.get?_map, h, Option.map_some']
        · intro d' hd
          cases hd

/-- Witness for C6: one failed candidate and one successful one. -/
theorem getComponentData_preserves_candidates_witness :
    ([(7, ExtractOutcome.failed), (9, ExtractOutcome.ok neutralSig)].get? 0 =
      some (7, ExtractOutcome.failed)) ∧
    (∃ e, (getComponentData
        [(7, ExtractOutcome.failed), (9, ExtractOutcome.ok neutralSig)]).get? 0 = some e ∧
      e.comp = 7 ∧
      ((ExtractOutcome.failed = ExtractOutcome.failed ∨
        ExtractOutcome.failed = ExtractOutcome.timedOut) → e.data = neutralSig) ∧
      (∀ d, ExtractOutcome.failed = ExtractOutcome.ok d → e.data = d)) :=
  ⟨rfl, (getComponentData_preserves_candidates _).2 0 7 ExtractOutcome.failed rfl⟩

/-! ## C7 -/

theorem gridCell_build (f : ℕ → ℕ → Sig ℚ) (w h x y : ℕ) (hx : x < w) (hy : y < h) :
    gridCell ((List.range h).map fun j => (List.range w).map fun i => f i j) x y = f x y := by
  unfold gridCell
  have hrow : (((List.range h).map fun j => (List.range w).map fun i => f i j).getD y []) =
      (List.range w).map fun i => f i y := by
    rw [List.getD_eq_getElem?_getD, List.getElem?_map, List.getElem?_range hy]
    rfl
  rw [hrow, List.getD_eq_getElem?_getD, List.getElem?_map, List.getElem?_range hx]
  rfl

/-- C7 counterexample: when the exported bytes reach the UI but decoding
fails there, the resulting grid is the uniform neutral map, not the
synthetic gradient — the fallback is not identical across failure paths. -/
theorem decode_failure_not_gradient :
    getImageData 2 2 (RasterOutcome.uiReply (processImageReply false 2 2 DecodeOutcome.fail)) ≠
      exportFallbackGrid 2 2 ∧
    gridCell (getImageData 2 2 (RasterOutcome.uiReply
      (processImageReply false 2 2 DecodeOutcome.fail))) 0 0 =
      ⟨0.5, ⟨0.5, 0.5, 0.5⟩, 0⟩ ∧
    gridCell (exportFallbackGrid 2 2) 0 0 = ⟨0.3, ⟨0.3, 0.3, 0.5⟩, 0⟩ := by
  have h1 : gridCell (exportFallbackGrid 2 2) 0 0 = ⟨0.3, ⟨0.3, 0.3, 0.5⟩, 0⟩ := by
    unfold exportFallbackGrid
    rw [gridCell_build _ 2 2 0 0 (by norm_num) (by norm_num)]
    unfold exportFallbackCell
    norm_num
  have h2 : gridCell (getImageData 2 2 (RasterOutcome.uiReply
      (processImageReply false 2 2 DecodeOutcome.fail))) 0 0 =
      ⟨0.5, ⟨0.5, 0.5, 0.5⟩, 0⟩ := by
    show gridCell (uiErrorGrid 2 2) 0 0 = _
    unfold uiErrorGrid
    rw [gridCell_build _ 2 2 0 0 (by norm_num) (by norm_num)]
  refine ⟨?_, h2, h1⟩
  intro hEq
  have h3 := congrArg (fun g => gridCell g 0 0) hEq
  dsimp only at h3
  rw [h2, h1] at h3
  simp only [Sig.mk.injEq, RGB.mk.injEq] at h3
  norm_num at h3

/-- C7 amended: the export-failure path and the timeout path produce the
identical deterministic gradient grid, whose every cell follows the linear
formula in the relative coordinates; the UI decode-failure path instead
produces the uniform neutral grid (brightness 0.5, colour (0.5, 0.5, 0.5)). -/
theorem getImageData_failure_grids (tw : Bool) (w h : ℕ) :
    getImageData w h RasterOutcome.exportFail = getImageData w h RasterOutcome.timeout ∧
    (∀ x, x < w → ∀ y, y < h →
      gridCell (getImageData w h RasterOutcome.exportFail) x y =
        ⟨0.3 + (x : ℚ) / w * 0.4 + (y : ℚ) / h * 0.3,
         ⟨0.3 + (x : ℚ) / w * 0.7, 0.3 + (y : ℚ) / h * 0.7, 0.5⟩, 0⟩) ∧
    getImageData w h (RasterOutcome.uiReply (processImageReply tw w h DecodeOutcome.fail)) =
      uiErrorGrid w h ∧
    (∀ x, x < w → ∀ y, y < h →
      gridCell (getImageData w h
        (RasterOutcome.uiReply (processImageReply tw w h DecodeOutcome.fail))) x y =
        ⟨0.5, ⟨0.5, 0.5, 0.5⟩, 0⟩) := by
  refine ⟨rfl, ?_, rfl, ?_⟩
  · intro x hx y hy
    show gridCell (exportFallbackGrid w h) x y = _
    unfold exportFallbackGrid
    rw [gridCell_build _ w h x y hx hy]
    rfl
  · intro x hx y hy
    show gridCell (uiErrorGrid w h) x y = _
    unfold uiErrorGrid
    rw [gridCell_build _ w h x y hx hy]

/-- Witness for the amended C7 on a 3×2 grid at cell (2, 1). -/
theorem getImageData_failure_grids_witness :
    (2 < 3 ∧ 1 < 2) ∧
    gridCell (getImageData 3 2 RasterOutcome.exportFail) 2 1 =
      ⟨0.3 + (2 : ℚ) / 3 * 0.4 + (1 : ℚ) / 2 * 0.3,
       ⟨0.3 + (2 : ℚ) / 3 * 0.7, 0.3 + (1 : ℚ) / 2 * 0.7, 0.5⟩, 0⟩ :=
  ⟨⟨by decide, by decide⟩,
   (getImageData_failure_grids false 3 2).2.1 2 (by decide) 1 (by decide)⟩

/-! ## C4 -/

/-- C4 evaluation at the failing input: the source computes the grid from
`config.tileSize` — at a 1000×500 image, enlargement 1, tileSize 30 it
produces a 33-column, 16-row grid, while the claimed formula
`rows = round(columns · height / width)` demands 17 rows. -/
theorem gridSize_not_round_formula :
    gridWidth 1000 1 30 = 33 ∧ gridHeight 500 1 30 = 16 ∧
    round ((gridWidth 1000 1 30 : ℚ) * 500 / 1000) = 17 ∧
    gridHeight 500 1 30 ≠ round ((gridWidth 1000 1 30 : ℚ) * 500 / 1000) := by
  refine ⟨?_, ?_, ?_, ?_⟩ <;> norm_num [gridWidth, gridHeight, round_eq]

/-! ## Lemmas about the matcher -/

theorem colorDiff_self (c : RGB ℝ) : colorDiff c c = 0 := by
  simp [colorDiff]

theorem matchFold_spec (cell : Sig ℝ) (usage : ℕ → ℕ) :
    ∀ (l : List Tile) (b : Tile) (s : ℝ),
      ((matchFold cell usage l (b, s)).2 ≤ s ∧
       ∀ c ∈ l, (matchFold cell usage l (b, s)).2 ≤ penalizedScore cell usage c) ∧
      ((matchFold cell usage l (b, s) = (b, s) ∧
          ∀ c ∈ l, s ≤ penalizedScore cell usage c) ∨
       (∃ l₁ l₂, l = l₁ ++ (matchFold cell usage l (b, s)).1 :: l₂ ∧
          (matchFold cell usage l (b, s)).2 =
            penalizedScore cell usage (matchFold cell usage l (b, s)).1 ∧
          (matchFold cell usage l (b, s)).2 < s ∧
          ∀ c ∈ l₁, (matchFold cell usage l (b, s)).2 < penalizedScore cell usage c)) := by
  intro l
  induction l with
  | nil =>
      intro b s
      refine ⟨⟨le_refl _, ?_⟩, Or.inl ⟨rfl, ?_⟩⟩ <;> simp [matchFold]
  | cons c cs ih =>
      intro b s
      by_cases h : penalizedScore cell usage c < s
      · have hfold : matchFold cell usage (c :: cs) (b, s) =
            matchFold cell usage cs (c, penalizedScore cell usage c) := by
          rw [matchFold, if_pos h]
        obtain ⟨⟨hle, hall⟩, hcases⟩ := ih c (penalizedScore cell usage c)
        rw [hfold]
        refine ⟨⟨le_trans hle h.le, ?_⟩, ?_⟩
        · intro d hd
          rcases List.mem_cons.mp hd with rfl | hd'
          · exact hle
          · exact hall d hd'
        · rcases hcases with ⟨heq, hge⟩ | ⟨l₁, l₂, hdecomp, hscore, hlt, hpre⟩
          · refine Or.inr ⟨[], cs, by simp [heq], by simp [heq], ?_, by simp⟩
            rw [heq]
            exact h
          · refine Or.inr ⟨c :: l₁, l₂, ?_, hscore, lt_trans hlt h, ?_⟩
            · rw [List.cons_append]
              exact congrArg (fun x => c :: x) hdecomp
            · intro d hd
              rcases List.mem_cons.mp hd with rfl | hd'
              · exact hlt
              · exact hpre d hd'
      · have hfold : matchFold cell usage (c :: cs) (b, s) = matchFold cell usage cs (b, s) := by
          rw [matchFold, if_neg h]
        obtain ⟨⟨hle, hall⟩, hcases⟩ := ih b s
        rw [hfold]
        have hsc : s ≤ penalizedScore cell usage c := not_lt.mp h
        refine ⟨⟨hle, ?_⟩, ?_⟩
        · intro d hd
          rcases List.mem_cons.mp hd with rfl | hd'
          · exact le_trans hle hsc
          · exact hall d hd'
        · rcases hcases with ⟨heq, hge⟩ | ⟨l₁, l₂, hdecomp, hscore, hlt, hpre⟩
          · refine Or.inl ⟨heq, ?_⟩
            intro d hd
            rcases List.mem_cons.mp hd with rfl | hd'
            · exact hsc
            · exact hge d hd'
          · refine Or.inr ⟨c :: l₁, l₂, ?_, hscore, hlt, ?_⟩
            · rw [List.cons_append]
              exact congrArg (fun x => c :: x) hdecomp
            · intro d hd
              rcases List.mem_cons.mp hd with rfl | hd'
              · exact lt_of_lt_of_le hlt hsc
              · exact hpre d hd'

theorem bestMatch_pair_first (cell : Sig ℝ) (usage : ℕ → ℕ) (t₁ t₂ : Tile)
    (h1 : penalizedScore cell usage t₁ < MAX_VALUE)
    (h2 : ¬ penalizedScore cell usage t₂ < penalizedScore cell usage t₁) :
    bestMatch cell usage t₁ [t₂] = t₁ := by
  unfold bestMatch
  rw [matchFold, if_pos h1, matchFold, if_neg h2, matchFold]

theorem bestMatch_pair_second (cell : Sig ℝ) (usage : ℕ → ℕ) (t₁ t₂ : Tile)
    (h1 : penalizedScore cell usage t₁ < MAX_VALUE)
    (h2 : penalizedScore cell usage t₂ < penalizedScore cell usage t₁) :
    bestMatch cell usage t₁ [t₂] = t₂ := by
  unfold bestMatch
  rw [matchFold, if_pos h1, matchFold, if_pos h2, matchFold]

theorem usagePenalty_lt (u₁ u₂ : ℕ) (h : u₁ < u₂) (hcap : u₁ < 10) :
    usagePenalty u₁ < usagePenalty u₂ := by
  unfold usagePenalty
  have hu1 : ((u₁ : ℝ)) * 0.01 < 0.1 := by
    have : (u₁ : ℝ) < 10 := by exact_mod_cast hcap
    nlinarith
  rw [min_eq_left hu1.le]
  apply lt_min
  · have : (u₁ : ℝ) < u₂ := by exact_mod_cast h
    nlinarith
  · exact hu1

/-! ## C1 -/

/-- C1: for every processed grid cell, the scoring loop of `createMosaic`
scores each library tile as `0.6·|cellBrightness − tileBrightness| +
0.4·(euclidean RGB distance / √3)` plus the usage penalty
`min(usageCount·0.01, 0.1)` (both baked into `penalizedScore`), and places
a tile of minimum penalized score; on ties the tile earlier in library
order wins: the chosen tile splits the library into a strict-greater
prefix and a tail, so no equal-scoring tile precedes it. -/
theorem createMosaic_matcher_argmin (cell : Sig ℝ) (usage : ℕ → ℕ)
    (first : Tile) (rest : List Tile)
    (hfin : ∀ c ∈ first :: rest, penalizedScore cell usage c < MAX_VALUE) :
    ∃ l₁ l₂,
      first :: rest = l₁ ++ bestMatch cell usage first rest :: l₂ ∧
      (∀ c ∈ first :: rest,
        penalizedScore cell usage (bestMatch cell usage first rest) ≤
          penalizedScore cell usage c) ∧
      (∀ c ∈ l₁,
        penalizedScore cell usage (bestMatch cell usage first rest) <
          penalizedScore cell usage c) := by
  obtain ⟨⟨hle, hall⟩, hcases⟩ := matchFold_spec cell usage (first :: rest) first MAX_VALUE
  rcases hcases with ⟨heq, hge⟩ | ⟨l₁, l₂, hdecomp, hscore, hlt, hpre⟩
  · exact absurd (hge first (List.mem_cons_self _ _))
      (not_le.mpr (hfin first (List.mem_cons_self _ _)))
  · refine ⟨l₁, l₂, hdecomp, ?_, ?_⟩
    · intro c hc
      have hc' := hall c hc
      rw [hscore] at hc'
      exact hc'
    · intro c hc
      have hc' := hpre c hc
      rw [hscore] at hc'
      exact hc'

/-- Witness for C1 on a two-tile library. -/
theorem createMosaic_matcher_argmin_witness :
    (∀ c ∈ [Tile.mk 0 0.5 ⟨0.5, 0.5, 0.5⟩, Tile.mk 1 0.5 ⟨0.5, 0.5, 0.5⟩],
      penalizedScore ⟨0.5, ⟨0.5, 0.5, 0.5⟩, 0⟩ (fun _ => 0) c < MAX_VALUE) ∧
    (∃ l₁ l₂,
      [Tile.mk 0 0.5 ⟨0.5, 0.5, 0.5⟩, Tile.mk 1 0.5 ⟨0.5, 0.5, 0.5⟩] = l₁ ++
        bestMatch ⟨0.5, ⟨0.5, 0.5, 0.5⟩, 0⟩ (fun _ => 0)
          (Tile.mk 0 0.5 ⟨0.5, 0.5, 0.5⟩) [Tile.mk 1 0.5 ⟨0.5, 0.5, 0.5⟩] :: l₂ ∧
      (∀ c ∈ [Tile.mk 0 0.5 ⟨0.5, 0.5, 0.5⟩, Tile.mk 1 0.5 ⟨0.5, 0.5, 0.5⟩],
        penalizedScore ⟨0.5, ⟨0.5, 0.5, 0.5⟩, 0⟩ (fun _ => 0)
          (bestMatch ⟨0.5, ⟨0.5, 0.5, 0.5⟩, 0⟩ (fun _ => 0)
            (Tile.mk 0 0.5 ⟨0.5, 0.5, 0.5⟩) [Tile.mk 1 0.5 ⟨0.5, 0.5, 0.5⟩]) ≤
          penalizedScore ⟨0.5, ⟨0.5, 0.5, 0.5⟩, 0⟩ (fun _ => 0) c) ∧
      (∀ c ∈ l₁,
        penalizedScore ⟨0.5, ⟨0.5, 0.5, 0.5⟩, 0⟩ (fun _ => 0)
          (bestMatch ⟨0.5, ⟨0.5, 0.5, 0.5⟩, 0⟩ (fun _ => 0)
            (Tile.mk 0 0.5 ⟨0.5, 0.5, 0.5⟩) [Tile.mk 1 0.5 ⟨0.5, 0.5, 0.5⟩]) <
          penalizedScore ⟨0.5, ⟨0.5, 0.5, 0.5⟩, 0⟩ (fun _ => 0) c)) := by
  have hfin : ∀ c ∈ [Tile.mk 0 0.5 ⟨0.5, 0.5, 0.5⟩, Tile.mk 1 0.5 ⟨0.5, 0.5, 0.5⟩],
      penalizedScore ⟨0.5, ⟨0.5, 0.5, 0.5⟩, 0⟩ (fun _ => 0) c < MAX_VALUE := by
    intro c hc
    have hps : penalizedScore ⟨0.5, ⟨0.5, 0.5, 0.5⟩, 0⟩ (fun _ => 0) c =
        baseScore ⟨0.5, ⟨0.5, 0.5, 0.5⟩, 0⟩ c := by
      unfold penalizedScore usagePenalty
      norm_num
    rcases List.mem_cons.mp hc with rfl | hc'
    · rw [hps]
      unfold baseScore
      rw [colorDiff_self]
      norm_num [MAX_VALUE]
    · rcases List.mem_cons.mp hc' with rfl | hc''
      · rw [hps]
        unfold baseScore
        rw [colorDiff_self]
        norm_num [MAX_VALUE]
      · cases hc''
  exact ⟨hfin, createMosaic_matcher_argmin _ _ _ _ hfin⟩

/-! ## C9 -/

/-- C9 counterexample: two tiles with identical base score and usage
counts 20 versus 10 — both at or above the penalty cap — receive equal
penalized scores, and the higher-usage tile, being first in library
order, is chosen over the lower-usage one. -/
theorem usage_tie_prefers_library_order :
    (fun id => if id = 0 then 20 else 10) (Tile.mk 0 0.5 ⟨0.5, 0.5, 0.5⟩).id = 20 ∧
    (fun id => if id = 0 then 20 else 10) (Tile.mk 1 0.5 ⟨0.5, 0.5, 0.5⟩).id = 10 ∧
    baseScore ⟨0.5, ⟨0.5, 0.5, 0.5⟩, 0⟩ (Tile.mk 0 0.5 ⟨0.5, 0.5, 0.5⟩) =
      baseScore ⟨0.5, ⟨0.5, 0.5, 0.5⟩, 0⟩ (Tile.mk 1 0.5 ⟨0.5, 0.5, 0.5⟩) ∧
    bestMatch ⟨0.5, ⟨0.5, 0.5, 0.5⟩, 0⟩ (fun id => if id = 0 then 20 else 10)
      (Tile.mk 0 0.5 ⟨0.5, 0.5, 0.5⟩) [Tile.mk 1 0.5 ⟨0.5, 0.5, 0.5⟩] =
      Tile.mk 0 0.5 ⟨0.5, 0.5, 0.5⟩ := by
  have hbase : ∀ t : Tile, t.brightness = 0.5 → t.color = ⟨0.5, 0.5, 0.5⟩ →
      baseScore ⟨0.5, ⟨0.5, 0.5, 0.5⟩, 0⟩ t = 0 := by
    intro t hb hc
    unfold baseScore
    rw [show (⟨0.5, ⟨0.5, 0.5, 0.5⟩, 0⟩ : Sig ℝ).color = t.color by rw [hc]]
    rw [colorDiff_self, hb]
    norm_num
  have h1 : penalizedScore ⟨0.5, ⟨0.5, 0.5, 0.5⟩, 0⟩ (fun id => if id = 0 then 20 else 10)
      (Tile.mk 0 0.5 ⟨0.5, 0.5, 0.5⟩) = 0.1 := by
    unfold penalizedScore usagePenalty
    rw [hbase _ rfl rfl]
    norm_num
  have h2 : penalizedScore ⟨0.5, ⟨0.5, 0.5, 0.5⟩, 0⟩ (fun id => if id = 0 then 20 else 10)
      (Tile.mk 1 0.5 ⟨0.5, 0.5, 0.5⟩) = 0.1 := by
    unfold penalizedScore usagePenalty
    rw [hbase _ rfl rfl]
    norm_num
  refine ⟨rfl, rfl, by rw [hbase _ rfl rfl, hbase _ rfl rfl], ?_⟩
  apply bestMatch_pair_first
  · rw [h1]; norm_num [MAX_VALUE]
  · rw [h1, h2]; norm_num

/-- C9 amended: the matcher is monotone in usage below the penalty cap —
with identical base scores, the tile whose usage count is both lower and
below 10 is strictly preferred (chosen from either library order) — and a
tile with usage 0 whose base score is more than 0.1 better than a
competitor at usage 20 (penalty capped at 0.1) is always chosen; at or
above the cap, equal base scores give equal penalized scores and library
order decides (see the counterexample). -/
theorem matcher_usage_monotone_below_cap :
    (∀ (cell : Sig ℝ) (usage : ℕ → ℕ) (t₁ t₂ : Tile),
      baseScore cell t₁ = baseScore cell t₂ →
      usage t₁.id < usage t₂.id → usage t₁.id < 10 →
      penalizedScore cell usage t₂ < MAX_VALUE →
      bestMatch cell usage t₁ [t₂] = t₁ ∧ bestMatch cell usage t₂ [t₁] = t₁) ∧
    (∀ (cell : Sig ℝ) (usage : ℕ → ℕ) (t₁ t₂ : Tile),
      usage t₁.id = 0 → usage t₂.id = 20 →
      baseScore cell t₁ + 0.1 < baseScore cell t₂ →
      penalizedScore cell usage t₂ < MAX_VALUE →
      bestMatch cell usage t₁ [t₂] = t₁ ∧ bestMatch cell usage t₂ [t₁] = t₁) := by
  constructor
  · intro cell usage t₁ t₂ hbase husage hcap hmax
    have hlt : penalizedScore cell usage t₁ < penalizedScore cell usage t₂ := by
      unfold penalizedScore
      rw [hbase]
      exact add_lt_add_left (usagePenalty_lt _ _ husage hcap) _
    exact ⟨bestMatch_pair_first cell usage t₁ t₂ (lt_trans hlt hmax) (not_lt.mpr hlt.le),
           bestMatch_pair_second cell usage t₂ t₁ hmax hlt⟩
  · intro cell usage t₁ t₂ hu1 hu2 hadv hmax
    have hp1 : usagePenalty (usage t₁.id) = 0 := by
      rw [hu1]
      unfold usagePenalty
      norm_num
    have hp2 : usagePenalty (usage t₂.id) = 0.1 := by
      rw [hu2]
      unfold usagePenalty
      norm_num
    have hlt : penalizedScore cell usage t₁ < penalizedScore cell usage t₂ := by
      unfold penalizedScore
      rw [hp1, hp2]
      linarith
    exact ⟨bestMatch_pair_first cell usage t₁ t₂ (lt_trans hlt hmax) (not_lt.mpr hlt.le),
           bestMatch_pair_second cell usage t₂ t₁ hmax hlt⟩

/-- Witness for the amended C9: equal base scores, usage 3 versus 7. -/
theorem matcher_usage_monotone_below_cap_witness :
    (baseScore ⟨0.5, ⟨0.5, 0.5, 0.5⟩, 0⟩ (Tile.mk 1 0.5 ⟨0.5, 0.5, 0.5⟩) =
      baseScore ⟨0.5, ⟨0.5, 0.5, 0.5⟩, 0⟩ (Tile.mk 0 0.5 ⟨0.5, 0.5, 0.5⟩) ∧
     (fun id => if id = 0 then 7 else 3) (Tile.mk 1 0.5 ⟨0.5, 0.5, 0.5⟩).id <
       (fun id => if id = 0 then 7 else 3) (Tile.mk 0 0.5 ⟨0.5, 0.5, 0.5⟩).id ∧
     (fun id => if id = 0 then 7 else 3) (Tile.mk 1 0.5 ⟨0.5, 0.5, 0.5⟩).id < 10) ∧
    (bestMatch ⟨0.5, ⟨0.5, 0.5, 0.5⟩, 0⟩ (fun id => if id = 0 then 7 else 3)
        (Tile.mk 1 0.5 ⟨0.5, 0.5, 0.5⟩) [Tile.mk 0 0.5 ⟨0.5, 0.5, 0.5⟩] =
        Tile.mk 1 0.5 ⟨0.5, 0.5, 0.5⟩ ∧
     bestMatch ⟨0.5, ⟨0.5, 0.5, 0.5⟩, 0⟩ (fun id => if id = 0 then 7 else 3)
        (Tile.mk 0 0.5 ⟨0.5, 0.5, 0.5⟩) [Tile.mk 1 0.5 ⟨0.5, 0.5, 0.5⟩] =
        Tile.mk 1 0.5 ⟨0.5, 0.5, 0.5⟩) := by
  have hbase : ∀ t : Tile, t.brightness = 0.5 → t.color = ⟨0.5, 0.5, 0.5⟩ →
      baseScore ⟨0.5, ⟨0.5, 0.5, 0.5⟩, 0⟩ t = 0 := by
    intro t hb hc
    unfold baseScore
    rw [show (⟨0.5, ⟨0.5, 0.5, 0.5⟩, 0⟩ : Sig ℝ).color = t.color by rw [hc]]
    rw [colorDiff_self, hb]
    norm_num
  have hb : baseScore ⟨0.5, ⟨0.5, 0.5, 0.5⟩, 0⟩ (Tile.mk 1 0.5 ⟨0.5, 0.5, 0.5⟩) =
      baseScore ⟨0.5, ⟨0.5, 0.5, 0.5⟩, 0⟩ (Tile.mk 0 0.5 ⟨0.5, 0.5, 0.5⟩) := by
    rw [hbase _ rfl rfl, hbase _ rfl rfl]
  have hmax : penalizedScore ⟨0.5, ⟨0.5, 0.5, 0.5⟩, 0⟩ (fun id => if id = 0 then 7 else 3)
      (Tile.mk 0 0.5 ⟨0.5, 0.5, 0.5⟩) < MAX_VALUE := by
    unfold penalizedScore usagePenalty
    rw [hbase _ rfl rfl]
    norm_num [MAX_VALUE]
  exact ⟨⟨hb, by norm_num, by norm_num⟩,
    matcher_usage_monotone_below_cap.1 ⟨0.5, ⟨0.5, 0.5, 0.5⟩, 0⟩
      (fun id => if id = 0 then 7 else 3) (Tile.mk 1 0.5 ⟨0.5, 0.5, 0.5⟩)
      (Tile.mk 0 0.5 ⟨0.5, 0.5, 0.5⟩) hb (by norm_num) (by norm_num) hmax⟩

/-! ## C2 -/

theorem blockFree_spec (W H : ℕ) (occ : ℕ → ℕ → Bool) (cells : List (ℕ × ℕ))
    (hfree : blockFree W H occ cells = true) :
    ∀ c ∈ cells, c.1 < W ∧ c.2 < H ∧ occ c.1 c.2 = false := by
  intro c hc
  unfold blockFree at hfree
  rw [List.all_eq_true] at hfree
  have hcc := hfree c hc
  simp only [Bool.and_eq_true, decide_eq_true_eq, Bool.not_eq_true'] at hcc
  exact ⟨hcc.1.1, hcc.1.2, hcc.2⟩

theorem one_le_maxAllowed (mode : SizeMode) : 1 ≤ maxAllowed mode := by
  cases mode <;> norm_num [maxAllowed]

theorem blockCells_one (x y : ℕ) : blockCells x y 1 = [(x, y)] := by
  simp [blockCells, List.range_succ]

/-- C2 (the Variable-Size Tile Planner is modelled from the spec, §4.4; see
`planFootprint`): at an in-bounds, unoccupied origin the planner returns a
size in {1, 2, 4} never exceeding the configured maximum, whose footprint
cells are all in bounds and unoccupied; size 4 is returned only when both
the 2×2 and the 4×4 block qualify (bounds, occupancy, maxBrightnessDev <
0.1 and maxColorDev < 0.15 against the block means), size 2 only when the
2×2 block qualifies and the 4×4 step is unavailable or fails, and
otherwise the size is 1 with the cell's own unmodified signature. -/
theorem planFootprint_spec (W H : ℕ) (occ : ℕ → ℕ → Bool) (sig : ℕ → ℕ → Sig ℝ)
    (mode : SizeMode) (x y : ℕ) (hx : x < W) (hy : y < H) (hocc : occ x y = false) :
    ((planFootprint W H occ sig mode x y).size = 1 ∨
     (planFootprint W H occ sig mode x y).size = 2 ∨
     (planFootprint W H occ sig mode x y).size = 4) ∧
    (planFootprint W H occ sig mode x y).size ≤ maxAllowed mode ∧
    (∀ c ∈ blockCells x y (planFootprint W H occ sig mode x y).size,
      c.1 < W ∧ c.2 < H ∧ occ c.1 c.2 = false) ∧
    ((planFootprint W H occ sig mode x y).size = 4 →
      blockQualifies W H occ sig x y 2 ∧ blockQualifies W H occ sig x y 4 ∧
      (planFootprint W H occ sig mode x y).brightness =
        blockMeanBrightness sig (blockCells x y 4) ∧
      (planFootprint W H occ sig mode x y).color = blockMeanColor sig (blockCells x y 4)) ∧
    ((planFootprint W H occ sig mode x y).size = 2 →
      blockQualifies W H occ sig x y 2 ∧
      ¬ (4 ≤ maxAllowed mode ∧ blockQualifies W H occ sig x y 4) ∧
      (planFootprint W H occ sig mode x y).brightness =
        blockMeanBrightness sig (blockCells x y 2) ∧
      (planFootprint W H occ sig mode x y).color = blockMeanColor sig (blockCells x y 2)) ∧
    ((planFootprint W H occ sig mode x y).size = 1 →
      ¬ (2 ≤ maxAllowed mode ∧ blockQualifies W H occ sig x y 2) ∧
      (planFootprint W H occ sig mode x y).brightness = (sig x y).brightness ∧
      (planFootprint W H occ sig mode x y).color = (sig x y).color) := by
  unfold planFootprint
  split_ifs with hq2 hq4
  · refine ⟨Or.inr (Or.inr rfl), hq4.1, ?_, fun _ => ⟨hq2.2, hq4.2, rfl, rfl⟩,
      fun h2 => by norm_num at h2, fun h1 => by norm_num at h1⟩
    exact blockFree_spec W H occ _ hq4.2.1
  · refine ⟨Or.inr (Or.inl rfl), hq2.1, ?_, fun h4 => by norm_num at h4,
      fun _ => ⟨hq2.2, hq4, rfl, rfl⟩, fun h1 => by norm_num at h1⟩
    exact blockFree_spec W H occ _ hq2.2.1
  · refine ⟨Or.inl rfl, one_le_maxAllowed mode, ?_, fun h4 => by norm_num at h4,
      fun h2 => by norm_num at h2, fun _ => ⟨hq2, rfl, rfl⟩⟩
    intro c hc
    rw [blockCells_one] at hc
    rcases List.mem_singleton.mp hc with rfl
    exact ⟨hx, hy, hocc⟩

/-- Witness for C2: a uniform 4×4 grid, highly-variable mode, empty
occupancy, origin (0, 0). -/
theorem planFootprint_spec_witness :
    ((0 : ℕ) < 4 ∧ (0 : ℕ) < 4 ∧ (fun _ _ : ℕ => false) 0 0 = false) ∧
    (((planFootprint 4 4 (fun _ _ => false)
        (fun _ _ => ⟨0.5, ⟨0.5, 0.5, 0.5⟩, 0⟩) SizeMode.fourX 0 0).size = 1 ∨
      (planFootprint 4 4 (fun _ _ => false)
        (fun _ _ => ⟨0.5, ⟨0.5, 0.5, 0.5⟩, 0⟩) SizeMode.fourX 0 0).size = 2 ∨
      (planFootprint 4 4 (fun _ _ => false)
        (fun _ _ => ⟨0.5, ⟨0.5, 0.5, 0.5⟩, 0⟩) SizeMode.fourX 0 0).size = 4) ∧
     (planFootprint 4 4 (fun _ _ => false)
        (fun _ _ => ⟨0.5, ⟨0.5, 0.5, 0.5⟩, 0⟩) SizeMode.fourX 0 0).size ≤
       maxAllowed SizeMode.fourX) :=
  ⟨⟨by norm_num, by norm_num, rfl⟩,
   by
    have h := planFootprint_spec 4 4 (fun _ _ => false)
      (fun _ _ => ⟨0.5, ⟨0.5, 0.5, 0.5⟩, 0⟩) SizeMode.fourX 0 0
      (by norm_num) (by norm_num) rfl
    exact ⟨h.1, h.2.1⟩⟩

/-! ## C8 -/

theorem pickPositions_mem (posDraw : ℕ → ℕ × ℕ) (n : ℕ) (P : ℕ × ℕ → Prop)
    (hdraw : ∀ i, P (posDraw i)) :
    ∀ (fuel i : ℕ) (s : Finset (ℕ × ℕ)), (∀ p ∈ s, P p) →
      ∀ p ∈ pickPositions posDraw n fuel i s, P p
  | 0, _, _, hs => hs
  | fuel + 1, i, s, hs => by
      rw [pickPositions]
      split_ifs with hcard
      · refine pickPositions_mem posDraw n P hdraw fuel (i + 1) _ ?_
        intro p hp
        rcases Finset.mem_insert.mp hp with rfl | hp'
        · exact hdraw i
        · exact hs p hp'
      · exact hs

theorem replacementPercentage_bounds (r : ℚ) (h0 : 0 ≤ r) (h1 : r < 1) :
    5 ≤ replacementPercentage r ∧ replacementPercentage r ≤ 10 := by
  unfold replacementPercentage
  have hf0 : (0 : ℤ) ≤ ⌊r * 6⌋ := Int.floor_nonneg.mpr (by positivity)
  have hf6 : ⌊r * 6⌋ < 6 := by
    rw [Int.floor_lt]
    push_cast
    linarith
  omega

theorem numToReplace_100 (pct : ℤ) : numToReplace pct 100 = pct := by
  unfold numToReplace
  rw [show ((pct : ℚ)) / 100 * ((100 : ℕ) : ℚ) = (pct : ℚ) by push_cast; ring]
  exact Int.floor_intCast pct

theorem selectAlternative_ne (cell : Sig ℝ) (lib : List Tile) (cur : ℕ) (r : ℚ)
    (hne : ∃ c ∈ lib, c.id ≠ cur) (hr0 : 0 ≤ r) (hr1 : r < 1) :
    ∃ t, selectAlternative cell lib cur r = some t ∧ t.id ≠ cur := by
  obtain ⟨c0, hc0l, hc0ne⟩ := hne
  have hmem : (c0, baseScore cell c0) ∈
      (lib.filter fun c => c.id ≠ cur).map fun c => (c, baseScore cell c) :=
    List.mem_map.mpr ⟨c0, List.mem_filter.mpr ⟨hc0l, by simpa using hc0ne⟩, rfl⟩
  set alts := (lib.filter fun c => c.id ≠ cur).map fun c => (c, baseScore cell c) with halts
  set sorted := alts.mergeSort fun a b => decide (a.2 ≤ b.2) with hsorted
  have hperm : sorted.Perm alts := List.mergeSort_perm alts _
  have hlenpos : 0 < sorted.length := by
    rw [hperm.length_eq]
    exact List.length_pos.mpr (List.ne_nil_of_mem hmem)
  set m : ℚ := min 3 (sorted.length : ℚ) with hm
  have hm1 : (1 : ℚ) ≤ m := by
    refine le_min (by norm_num) ?_
    exact_mod_cast hlenpos
  have hidx : (⌊r * m⌋).toNat < sorted.length := by
    have hup : ⌊r * m⌋ < (sorted.length : ℤ) := by
      rw [Int.floor_lt]
      have hmm : r * m < m := by nlinarith
      have hml : m ≤ (sorted.length : ℚ) := min_le_right _ _
      push_cast
      linarith
    have hdn : (0 : ℤ) ≤ ⌊r * m⌋ := Int.floor_nonneg.mpr (by nlinarith)
    omega
  obtain ⟨t', hget⟩ : ∃ t', sorted.get? (⌊r * m⌋).toNat = some t' :=
    ⟨_, List.get?_eq_get hidx⟩
  have htmem : t' ∈ alts := hperm.mem_iff.mp (List.get?_mem hget)
  obtain ⟨c1, hc1f, hc1e⟩ := List.mem_map.mp htmem
  have hc1ne : c1.id ≠ cur := by
    have hh := (List.mem_filter.mp hc1f).2
    simpa using hh
  refine ⟨t'.1, ?_, ?_⟩
  · show (sorted.get? (⌊r * m⌋).toNat).map (fun sel => sel.1) = some t'.1
    rw [hget]
    rfl
  · rw [← hc1e]
    exact hc1ne

theorem varyLayout_ne_iff (img : ℕ → ℕ → Sig ℝ) (imgW imgH : ℕ) (lib : List Tile)
    (prim : ℕ × ℕ → ℕ) (xT yT : ℕ) (rand : VarRand) (fuel : ℕ)
    (halt : ∀ pos : ℕ × ℕ, ∃ c ∈ lib, c.id ≠ prim pos)
    (hchoice : ∀ pos : ℕ × ℕ, 0 ≤ rand.choiceDraw pos ∧ rand.choiceDraw pos < 1)
    (pos : ℕ × ℕ) :
    varyLayout img imgW imgH lib prim xT yT rand fuel pos ≠ prim pos ↔
      pos ∈ pickPositions rand.posDraw
        ((numToReplace (replacementPercentage rand.pctDraw) (xT * yT)).toNat) fuel 0 ∅ := by
  obtain ⟨t, hsel, htne⟩ := selectAlternative_ne (cellAt img imgW imgH xT yT pos) lib
    (prim pos) (rand.choiceDraw pos) (halt pos) (hchoice pos).1 (hchoice pos).2
  simp only [varyLayout]
  by_cases hmem : pos ∈ pickPositions rand.posDraw
      ((numToReplace (replacementPercentage rand.pctDraw) (xT * yT)).toNat) fuel 0 ∅
  · rw [if_pos hmem, hsel]
    exact iff_of_true htne hmem
  · rw [if_neg hmem]
    exact iff_of_false (fun hc => hc rfl) hmem

theorem varyLayout_diffSet (img : ℕ → ℕ → Sig ℝ) (imgW imgH : ℕ) (lib : List Tile)
    (prim : ℕ × ℕ → ℕ) (rand : VarRand) (fuel : ℕ)
    (halt : ∀ pos : ℕ × ℕ, ∃ c ∈ lib, c.id ≠ prim pos)
    (hchoice : ∀ pos : ℕ × ℕ, 0 ≤ rand.choiceDraw pos ∧ rand.choiceDraw pos < 1)
    (hpos : ∀ i, (rand.posDraw i).1 < 10 ∧ (rand.posDraw i).2 < 10) :
    diffSet prim (varyLayout img imgW imgH lib prim 10 10 rand fuel) 10 10 =
      pickPositions rand.posDraw
        ((numToReplace (replacementPercentage rand.pctDraw) (10 * 10)).toNat) fuel 0 ∅ := by
  ext pos
  simp only [diffSet, Finset.mem_filter, gridPositions, Finset.mem_product, Finset.mem_range]
  constructor
  · rintro ⟨_, hne⟩
    exact (varyLayout_ne_iff img imgW imgH lib prim 10 10 rand fuel halt hchoice pos).mp hne
  · intro hS
    refine ⟨?_, (varyLayout_ne_iff img imgW imgH lib prim 10 10 rand fuel halt hchoice pos).mpr hS⟩
    exact pickPositions_mem rand.posDraw _ (fun p => p.1 < 10 ∧ p.2 < 10) hpos fuel 0 ∅
      (fun p hp => absurd hp (Finset.not_mem_empty p)) pos hS

/-- C8: with `variationCount = 3` on a 10×10 primary layout, exactly 2
additional layouts are produced; each differs from the primary on exactly
the drawn set of distinct positions — so no footprint is replaced twice
within one variation — and that set's size `numToReplace` lies between 5
and 10 inclusive (the percentage draw lands in {5,…,10} and
`floor(p/100·100) = p`).  The hypotheses supply the randomness stream in
[0, 1), enough fuel for the source's rejection-sampling `while` loop, and
a library containing an alternative for every position. -/
theorem createMosaicVariations_spec (img : ℕ → ℕ → Sig ℝ) (imgW imgH : ℕ)
    (lib : List Tile) (prim : ℕ × ℕ → ℕ) (rands : ℕ → VarRand) (fuel : ℕ)
    (hpct : ∀ i, 0 ≤ (rands i).pctDraw ∧ (rands i).pctDraw < 1)
    (hpos : ∀ i j, ((rands i).posDraw j).1 < 10 ∧ ((rands i).posDraw j).2 < 10)
    (hchoice : ∀ i, ∀ p : ℕ × ℕ, 0 ≤ (rands i).choiceDraw p ∧ (rands i).choiceDraw p < 1)
    (halt : ∀ p : ℕ × ℕ, ∃ c ∈ lib, c.id ≠ prim p)
    (hfuel : ∀ i, (pickPositions (rands i).posDraw
        ((numToReplace (replacementPercentage (rands i).pctDraw) (10 * 10)).toNat)
        fuel 0 ∅).card =
      (numToReplace (replacementPercentage (rands i).pctDraw) (10 * 10)).toNat) :
    (createMosaicVariations img imgW imgH lib prim 10 10 3 rands fuel).length = 2 ∧
    ∀ v ∈ createMosaicVariations img imgW imgH lib prim 10 10 3 rands fuel,
      (5 ≤ (diffSet prim v 10 10).card ∧ (diffSet prim v 10 10).card ≤ 10) ∧
      ∃ i, diffSet prim v 10 10 =
        pickPositions (rands i).posDraw
          ((numToReplace (replacementPercentage (rands i).pctDraw) (10 * 10)).toNat)
          fuel 0 ∅ := by
  constructor
  · simp [createMosaicVariations]
  · intro v hv
    simp only [createMosaicVariations, List.mem_map, List.mem_range] at hv
    obtain ⟨i, _, rfl⟩ := hv
    have hdiff := varyLayout_diffSet img imgW imgH lib prim (rands i) fuel halt
      (hchoice i) (hpos i)
    have hcard :
        (diffSet prim (varyLayout img imgW imgH lib prim 10 10 (rands i) fuel) 10 10).card =
        (numToReplace (replacementPercentage (rands i).pctDraw) (10 * 10)).toNat := by
      rw [hdiff]
      exact hfuel i
    have hpctb := replacementPercentage_bounds (rands i).pctDraw (hpct i).1 (hpct i).2
    have hnum : numToReplace (replacementPercentage (rands i).pctDraw) (10 * 10) =
        replacementPercentage (rands i).pctDraw := by
      rw [show (10 * 10 : ℕ) = 100 from rfl]
      exact numToReplace_100 _
    refine ⟨⟨?_, ?_⟩, ⟨i, hdiff⟩⟩
    · rw [hcard, hnum]
      omega
    · rw [hcard, hnum]
      omega

/-- Witness for C8 at a concrete randomness stream, two-tile library and
constant primary layout. -/
theorem createMosaicVariations_spec_witness :
    ((pickPositions (fun j => (j % 10, 0))
        ((numToReplace (replacementPercentage 0) (10 * 10)).toNat) 5 0 ∅).card =
      (numToReplace (replacementPercentage 0) (10 * 10)).toNat) ∧
    ((createMosaicVariations (fun _ _ => ⟨0.5, ⟨0.5, 0.5, 0.5⟩, 0⟩) 32 16
        [Tile.mk 0 0.5 ⟨0.5, 0.5, 0.5⟩, Tile.mk 1 0.5 ⟨0.5, 0.5, 0.5⟩]
        (fun _ => 0) 10 10 3 (fun _ => ⟨0, fun j => (j % 10, 0), fun _ => 0⟩) 5).length = 2 ∧
     ∀ v ∈ createMosaicVariations (fun _ _ => ⟨0.5, ⟨0.5, 0.5, 0.5⟩, 0⟩) 32 16
        [Tile.mk 0 0.5 ⟨0.5, 0.5, 0.5⟩, Tile.mk 1 0.5 ⟨0.5, 0.5, 0.5⟩]
        (fun _ => 0) 10 10 3 (fun _ => ⟨0, fun j => (j % 10, 0), fun _ => 0⟩) 5,
      (5 ≤ (diffSet (fun _ => 0) v 10 10).card ∧ (diffSet (fun _ => 0) v 10 10).card ≤ 10) ∧
      ∃ i, diffSet (fun _ => 0) v 10 10 =
        pickPositions ((fun _ : ℕ => (⟨0, fun j => (j % 10, 0), fun _ => 0⟩ : VarRand)) i).posDraw
          ((numToReplace (replacementPercentage
            ((fun _ : ℕ => (⟨0, fun j => (j % 10, 0), fun _ => 0⟩ : VarRand)) i).pctDraw)
            (10 * 10)).toNat) 5 0 ∅) := by
  have htarget : (numToReplace (replacementPercentage 0) (10 * 10)).toNat = 5 := by
    have h1 : replacementPercentage 0 = 5 := by
      unfold replacementPercentage
      rw [zero_mul, Int.floor_zero]
      rfl
    rw [h1, show (10 * 10 : ℕ) = 100 from rfl, numToReplace_100]
    rfl
  have hfuel : ∀ i : ℕ, (pickPositions
      ((fun _ : ℕ => (⟨0, fun j => (j % 10, 0), fun _ => 0⟩ : VarRand)) i).posDraw
      ((numToReplace (replacementPercentage
        ((fun _ : ℕ => (⟨0, fun j => (j % 10, 0), fun _ => 0⟩ : VarRand)) i).pctDraw)
        (10 * 10)).toNat) 5 0 ∅).card =
      (numToReplace (replacementPercentage
        ((fun _ : ℕ => (⟨0, fun j => (j % 10, 0), fun _ => 0⟩ : VarRand)) i).pctDraw)
        (10 * 10)).toNat := by
    intro i
    show (pickPositions (fun j => (j % 10, 0))
      ((numToReplace (replacementPercentage 0) (10 * 10)).toNat) 5 0 ∅).card =
      (numToReplace (replacementPercentage 0) (10 * 10)).toNat
    rw [htarget]
    decide
  refine ⟨hfuel 0, ?_⟩
  exact createMosaicVariations_spec (fun _ _ => ⟨0.5, ⟨0.5, 0.5, 0.5⟩, 0⟩) 32 16
    [Tile.mk 0 0.5 ⟨0.5, 0.5, 0.5⟩, Tile.mk 1 0.5 ⟨0.5, 0.5, 0.5⟩]
    (fun _ => 0) (fun _ => ⟨0, fun j => (j % 10, 0), fun _ => 0⟩) 5
    (fun _ => ⟨le_refl 0, by norm_num⟩)
    (fun _ j => ⟨Nat.mod_lt j (by norm_num), by norm_num⟩)
    (fun _ _ => ⟨le_refl 0, by norm_num⟩)
    (fun p => ⟨Tile.mk 1 0.5 ⟨0.5, 0.5, 0.5⟩,
      List.mem_cons_of_mem _ (List.mem_cons_self _ _), by norm_num⟩)
    hfuel

end Mosaic
